import Mathlib

/-!
Verification of the discount-curve bootstrapper of `q3.py`.

The Python source is shallowly embedded here:

* Python floats are idealised as exact rationals (`ℚ`); float literals such
  as `0.8`, `1e-8` become the rationals `8/10`, `1/10^8`.
* A Python dict keyed by integer maturities is modelled as a function
  `ℕ → Option ℚ` (`none` = key absent).  Summation over the keys `t < T` of
  such a dict equals the sum over `t = 0, …, T-1` of `(d t).getD 0`, since
  absent keys contribute nothing.
* A Python dict keyed by float maturities (the deposit discount factors) is
  modelled as `ℚ → Option ℚ`.
* The quoted IRS rates dict is modelled as an association list
  `List (ℕ × ℚ)` built by insert-or-replace, mirroring insertion into a
  Python dict while keeping the key set enumerable.
* `math.log` is never computed symbolically: the rate-derivation functions
  are parametrised by an arbitrary function `lg : ℚ → ℚ` standing for the
  logarithm, which lets us prove that they never evaluate the logarithm at
  a non-positive argument (the result is independent of `lg` there).
-/

namespace Q3

/-- Function update for an integer-keyed dict `ℕ → Option ℚ`
(`d[k] = v` in Python). -/
def fup (f : ℕ → Option ℚ) (k : ℕ) (v : ℚ) : ℕ → Option ℚ :=
  fun i => if i = k then some v else f i

/-- Function update for a rational-keyed dict `ℚ → Option ℚ`. -/
def qup (f : ℚ → Option ℚ) (k : ℚ) (v : ℚ) : ℚ → Option ℚ :=
  fun i => if i = k then some v else f i

/-- `sum(alpha * prev[t] for t in sorted(prev.keys()) if t < T)` from
`bootstrap_discount_factor_IRS` in `q3.py`.  Keys absent from the dict
contribute `0`, so the sum over present keys `< T` equals this sum over
`t = 0, …, T-1`. -/
def dictAnnuity (alpha : ℚ) (d : ℕ → Option ℚ) : ℕ → ℚ
  | 0 => 0
  | T + 1 => dictAnnuity alpha d T + alpha * (d T).getD 0

/-- `bootstrap_discount_factor_IRS(S, T, previous_discount_factors, alpha)`
from `q3.py` (lines 79-87):
`P(0,T) = (1 - S * sum_{i<T} alpha * P(0,i)) / (1 + S * alpha)`. -/
def bootstrap_discount_factor_IRS (S : ℚ) (T : ℕ) (prev : ℕ → Option ℚ)
    (alpha : ℚ) : ℚ :=
  (1 - S * dictAnnuity alpha prev T) / (1 + S * alpha)

/-- `interpolate_LSR(S_a, S_b, T_a, T_b, T)` from `q3.py` (lines 89-94). -/
def interpolate_LSR (S_a S_b T_a T_b T : ℚ) : ℚ :=
  ((T_b - T) / (T_b - T_a)) * S_a + ((T - T_a) / (T_b - T_a)) * S_b

/-- The loop body of `solve_constant_forward` in `q3.py` (lines 96-109),
with the remaining iteration count as fuel and the Python variable `x_mid`
threaded as `last` (the value returned when the iteration budget is
exhausted).  For `max_iter ≥ 1` the initial `last` is irrelevant, exactly
as in the source where `x_mid` is first assigned inside the loop. -/
def scfGo (f : ℚ → ℚ) (tol : ℚ) : ℕ → ℚ → ℚ → ℚ → ℚ
  | 0, _, _, last => last
  | n + 1, lo, hi, _ =>
    let m := (lo + hi) / 2
    if |f m| < tol then m
    else if f lo * f m < 0 then scfGo f tol n lo m m
    else scfGo f tol n m hi m

/-- Number of loop iterations `scfGo` actually executes (each iteration of
the Python `for _ in range(max_iter)` loop counts once). -/
def scfSteps (f : ℚ → ℚ) (tol : ℚ) : ℕ → ℚ → ℚ → ℕ
  | 0, _, _ => 0
  | n + 1, lo, hi =>
    let m := (lo + hi) / 2
    if |f m| < tol then 1
    else if f lo * f m < 0 then scfSteps f tol n lo m + 1
    else scfSteps f tol n m hi + 1

/-- `solve_constant_forward(x_low, x_high, f, tol, max_iter)` from `q3.py`.
The source drops out of the loop after `max_iter` iterations and returns
the last midpoint; it raises neither `RootNotBracketed` nor
`RootFindingDidNotConverge`. -/
def solve_constant_forward (x_low x_high : ℚ) (f : ℚ → ℚ) (tol : ℚ)
    (max_iter : ℕ) : ℚ :=
  scfGo f tol max_iter x_low x_high ((x_low + x_high) / 2)

/-- The residual `f` defined inside `solve_cfr` in `q3.py` (lines 127-132):
`f(x) = S_target*(ann_a + P_a*summation) - (1 - P_a*x**delta)` where
`summation` is `delta*x` when `abs(1-x) < 1e-8` and
`x*(1 - x**delta)/(1 - x)` otherwise. -/
def solve_cfr_f (S_target P_a ann_a : ℚ) (delta : ℕ) (x : ℚ) : ℚ :=
  let summation :=
    if |1 - x| < 1 / 100000000 then (delta : ℚ) * x
    else x * (1 - x ^ delta) / (1 - x)
  S_target * (ann_a + P_a * summation) - (1 - P_a * x ^ delta)

/-- Division returning `none` on a zero denominator; used to express that
a computation never divides by zero. -/
def safeDiv (a b : ℚ) : Option ℚ :=
  if b = 0 then none else some (a / b)

/-- `solve_cfr_f` with the division made explicit: evaluates to `none`
exactly when the `else` branch would divide by `1 - x = 0`. -/
def solve_cfr_f_chk (S_target P_a ann_a : ℚ) (delta : ℕ) (x : ℚ) :
    Option ℚ :=
  (if |1 - x| < 1 / 100000000 then some ((delta : ℚ) * x)
   else safeDiv (x * (1 - x ^ delta)) (1 - x)).map
    (fun summation =>
      S_target * (ann_a + P_a * summation) - (1 - P_a * x ^ delta))

/-- `solve_cfr(P_a, ann_a, S_target, delta)` from `q3.py` (lines 111-140):
bisects `solve_cfr_f` on the hardcoded bracket `[0.8, 1.0]` with
`tol = 1e-8` and `max_iter = 100`, then returns the constant forward rate
`1/x - 1` and the gap discount factors `[P_a * x^i for i in 1..delta]`. -/
def solve_cfr (P_a ann_a S_target : ℚ) (delta : ℕ) : ℚ × List ℚ :=
  let x_solution :=
    solve_constant_forward (8 / 10) 1 (solve_cfr_f S_target P_a ann_a delta)
      (1 / 100000000) 100
  (1 / x_solution - 1,
   (List.range delta).map (fun i => P_a * x_solution ^ (i + 1)))

/-- The `bootstrap_method` configuration flag of `q3.py` ("LSR" or "CFR"),
as a tagged variant (the source's `raise ValueError` for any other string
is unreachable for these two values). -/
inductive Method
  | LSR
  | CFR
deriving DecidableEq

/-- The two mutable dicts of the bootstrapping loop in `q3.py`:
`bootstrapped_discount_factors` (`df`) and `annuity` (`ann`). -/
structure BState where
  df : ℕ → Option ℚ
  ann : ℕ → Option ℚ

/-- `annuity.get(k, 0)` in Python. -/
def annGet (a : ℕ → Option ℚ) (k : ℕ) : ℚ :=
  (a k).getD 0

/-- Keys of the quoted-IRS association list (`irs_rates.keys()`). -/
def irsKeys (irs : List (ℕ × ℚ)) : List ℕ :=
  irs.map Prod.fst

/-- Dict lookup on the association list (`irs_rates[T]` / `T in irs_rates`). -/
def alLookup (irs : List (ℕ × ℚ)) (k : ℕ) : Option ℚ :=
  match irs with
  | [] => none
  | p :: rest => if k = p.1 then some p.2 else alLookup rest k

/-- Insert a natural number into an already sorted list (ascending). -/
def insNat (x : ℕ) : List ℕ → List ℕ
  | [] => [x]
  | y :: rest => if x < y then x :: y :: rest else y :: insNat x rest

/-- `sorted(...)` on a list of integer maturities (insertion sort). -/
def sortNat (l : List ℕ) : List ℕ :=
  l.foldl (fun acc x => insNat x acc) []

/-- `max(...)` on a list of naturals; the source only applies it to
non-empty candidate lists, where the default `0` is never used. -/
def maxN (l : List ℕ) : ℕ :=
  l.foldr max 0

/-- `min(...)` on a list of naturals; the source only applies it to
non-empty candidate lists. -/
def minN : List ℕ → ℕ
  | [] => 0
  | [a] => a
  | a :: b :: rest => min a (minN (b :: rest))

/-- The gap-filling inner loop of the CFR branch in `q3.py` (lines
193-196): writes the interpolated discount factors at consecutive
maturities starting at `T_prev + 1`, updating the annuity alongside. -/
def cfrFill (Tstart : ℕ) (dfs : List ℚ) (st : BState) : BState :=
  match dfs with
  | [] => st
  | v :: rest =>
    cfrFill (Tstart + 1) rest
      ⟨fup st.df Tstart v, fup st.ann Tstart (annGet st.ann (Tstart - 1) + v)⟩

/-- `lower_candidates = [m for m in quoted_maturities if m < T]` with
`quoted_maturities = sorted(irs_rates.keys())` (`q3.py` lines 166-167). -/
def lowerCands (irs : List (ℕ × ℚ)) (T : ℕ) : List ℕ :=
  (sortNat (irsKeys irs)).filter (fun x => decide (x < T))

/-- `upper_candidates = [m for m in quoted_maturities if m > T]`
(`q3.py` line 168). -/
def upperCands (irs : List (ℕ × ℚ)) (T : ℕ) : List ℕ :=
  (sortNat (irsKeys irs)).filter (fun x => decide (T < x))

/-- Update `df[T]` and `ann[T] = ann.get(T-1, 0) + P` in one go (the
common tail of the quoted, LSR and fallback branches). -/
def writeP (st : BState) (T : ℕ) (P : ℚ) : BState :=
  ⟨fup st.df T P, fup st.ann T (annGet st.ann (T - 1) + P)⟩

/-- One iteration of the bootstrapping loop of `q3.py` (lines 157-198) at
maturity `T`.  Dict reads the source performs without a guard
(`bootstrapped_discount_factors[T-1]`, `irs_rates[T_prev]`, …) are
modelled with `.getD 0`; the loop only ever reads present keys (proved
below as the presence invariant). -/
def stepT (method : Method) (irs : List (ℕ × ℚ)) (st : BState) (T : ℕ) :
    BState :=
  match alLookup irs T with
  | some S => writeP st T (bootstrap_discount_factor_IRS S T st.df 1)
  | none =>
    if lowerCands irs T ≠ [] ∧ upperCands irs T ≠ [] then
      if method = Method.LSR ∨ st.df (maxN (lowerCands irs T)) = none then
        let Sprev := (alLookup irs (maxN (lowerCands irs T))).getD 0
        let Snext := (alLookup irs (minN (upperCands irs T))).getD 0
        let Sint := interpolate_LSR Sprev Snext (maxN (lowerCands irs T) : ℚ)
          (minN (upperCands irs T) : ℚ) (T : ℚ)
        writeP st T (bootstrap_discount_factor_IRS Sint T st.df 1)
      else
        let Tprev := maxN (lowerCands irs T)
        let Tnext := minN (upperCands irs T)
        cfrFill (Tprev + 1)
          (solve_cfr ((st.df Tprev).getD 0) (annGet st.ann Tprev)
            ((alLookup irs Tnext).getD 0) (Tnext - Tprev)).2 st
    else
      writeP st T ((st.df (T - 1)).getD 0)

/-- The bootstrapping loop `for T in range(2, max_maturity + 1)`. -/
def loopB (method : Method) (irs : List (ℕ × ℚ)) (st : BState)
    (L : List ℕ) : BState :=
  L.foldl (stepT method irs) st

/-- The only error the bootstrap of `q3.py` can raise: the
`ValueError("1-year deposit rate is required for bootstrapping.")` at
line 154 (named `MissingAnchor` in the specification).  No
`InvalidDiscountFactor`-style validation exists anywhere in the source. -/
inductive BootError
  | MissingAnchor
deriving DecidableEq

/-- `max_maturity = 60` in `q3.py` (line 156). -/
def max_maturity : ℕ := 60

/-- The whole bootstrapping procedure of `q3.py` (lines 146-198): seed the
anchor `P(1)` from the 1-year deposit discount factor (or fail), then run
the loop over `T = 2, …, horizon`.  The source fixes
`horizon = max_maturity = 60`; it is a parameter here. -/
def runBootstrap (method : Method) (depositDFs : ℚ → Option ℚ)
    (irs : List (ℕ × ℚ)) (horizon : ℕ) : Except BootError BState :=
  match depositDFs 1 with
  | some P1 =>
    let st0 : BState := ⟨fup (fun _ => none) 1 P1, fup (fun _ => none) 1 P1⟩
    .ok (loopB method irs st0 (List.range' 2 (horizon - 1)))
  | none => .error BootError.MissingAnchor

/-- Read a discount factor out of a bootstrap result (`none` when the
bootstrap failed or the maturity is absent). -/
def getCurve (r : Except BootError BState) (T : ℕ) : Option ℚ :=
  match r with
  | .ok st => st.df T
  | .error _ => none

/-- Whether the bootstrap succeeded. -/
def bootOk (r : Except BootError BState) : Bool :=
  match r with
  | .ok _ => true
  | .error _ => false

/-- The value a rate-derivation query yields for one grid point: a number,
or the `np.nan` sentinel of `q3.py`. -/
inductive RVal
  | val (q : ℚ)
  | nan
deriving DecidableEq

/-- The spot-rate derivation of `q3.py` (lines 202-207) at one maturity:
`-log(P)/T` when `P > 0`, the `NaN` sentinel otherwise, `none` when `T`
is not on the curve.  `lg` stands for `math.log`. -/
def spot_rate (lg : ℚ → ℚ) (df : ℕ → Option ℚ) (T : ℕ) : Option RVal :=
  match df T with
  | some P => if 0 < P then some (RVal.val (-(lg P) / (T : ℚ))) else some RVal.nan
  | none => none

/-- The forward-rate derivation of `q3.py` (lines 212-223) for one pair of
consecutive maturities: `-log(P(T_next)/P(T))/(T_next - T)` when both
factors are positive, the `NaN` sentinel otherwise. -/
def forward_rate (lg : ℚ → ℚ) (df : ℕ → Option ℚ) (T T_next : ℕ) :
    Option RVal :=
  match df T, df T_next with
  | some P, some Pn =>
    if 0 < P ∧ 0 < Pn then
      some (RVal.val (-(lg (Pn / P)) / ((T_next : ℚ) - (T : ℚ))))
    else some RVal.nan
  | _, _ => none

/-- The scanner behind `re.search(r'(\d+)(?=Y)', name)`: find the first
maximal digit run that is immediately followed by `Y` and return its
value.  (A digit run shorter than the maximal one cannot be followed by
`Y`, since `Y` is not a digit, so regex backtracking never produces a
different match.)  `cur` carries the value of the digit run currently
being read, `none` when the scanner is not inside a run. -/
def findIrsMatGo (cur : Option ℕ) : List Char → Option ℕ
  | [] => none
  | c :: rest =>
    if c.isDigit then
      findIrsMatGo (some (10 * cur.getD 0 + (c.toNat - '0'.toNat))) rest
    else if cur.isSome ∧ c = 'Y' then cur
    else findIrsMatGo none rest

/-- Entry point of the scanner: no run in progress initially. -/
def findIrsMat (l : List Char) : Option ℕ :=
  findIrsMatGo none l

/-- `maturity_from_irs(name)` from `q3.py` (lines 45-51): extract the
integer maturity from an IRS instrument name, `None` when absent. -/
def maturity_from_irs (name : String) : Option ℕ :=
  findIrsMat name.data

/-- `extract_swap_maturity(ric)` from the deprecated
`q3_old.py` (lines 40-49): same regex `(\d+)Y`, but raising
`ValueError` instead of returning `None` when nothing matches. -/
def extract_swap_maturity (ric : String) : Except String ℕ :=
  match maturity_from_irs ric with
  | some n => .ok n
  | none => .error ("Could not extract maturity from RIC: " ++ ric)

/-- Is `pat` a contiguous substring of `l` (Python's `pat in ric`)? -/
def subOf (pat : List Char) : List Char → Bool
  | [] => pat.isEmpty
  | c :: rest => pat.isPrefixOf (c :: rest) || subOf pat rest

/-- `maturity_from_deposit(ric)` from `q3.py` (lines 20-43). -/
def maturity_from_deposit (ric : String) : Option ℚ :=
  if subOf "SWD".data ric.data then some (7 / 360)
  else if subOf "1MD".data ric.data then some (30 / 360)
  else if subOf "3MD".data ric.data then some (90 / 360)
  else if subOf "6MD".data ric.data then some (180 / 360)
  else if subOf "9MD".data ric.data then some (270 / 360)
  else if subOf "1YD".data ric.data then some 1
  else none

/-- The deposit-processing block of `q3.py` (lines 53-65): drop the first
two rows (OND/TND), map each remaining row `(RIC, Last)` to
`P = 1 / (1 + Last/100 * T)` and store it under the parsed maturity;
rows with an unrecognized RIC are skipped. -/
def process_deposits (rows : List (String × ℚ)) : ℚ → Option ℚ :=
  (rows.drop 2).foldl
    (fun dd row =>
      match maturity_from_deposit row.1 with
      | some T => qup dd T (1 / (1 + row.2 / 100 * T))
      | none => dd)
    (fun _ => none)

/-- Stable insertion into a key-sorted association list. -/
def insPair (p : ℕ × ℚ) : List (ℕ × ℚ) → List (ℕ × ℚ)
  | [] => [p]
  | q :: rest => if p.1 < q.1 then p :: q :: rest else q :: insPair p rest

/-- `irs_df.sort_values(by='T')`: stable sort by maturity. -/
def sortByKey (l : List (ℕ × ℚ)) : List (ℕ × ℚ) :=
  l.foldl (fun acc p => insPair p acc) []

/-- Insert-or-replace into the association list modelling a Python dict. -/
def alInsert (l : List (ℕ × ℚ)) (k : ℕ) (v : ℚ) : List (ℕ × ℚ) :=
  match l with
  | [] => [(k, v)]
  | p :: rest => if p.1 = k then (k, v) :: rest else p :: alInsert rest k v

/-- The IRS-processing block of `q3.py` (lines 67-76): parse the maturity
from each name, `dropna` the rows whose maturity did not parse, sort by
maturity, and build the `irs_rates` dict with rates divided by 100. -/
def process_irs (rows : List (String × ℚ)) : List (ℕ × ℚ) :=
  let parsed := rows.filterMap
    (fun r => (maturity_from_irs r.1).map (fun T => (T, r.2 / 100)))
  (sortByKey parsed).foldl (fun d p => alInsert d p.1 p.2) []

/-! ### Concrete market inputs used in counterexamples and witnesses -/

/-- A deposit-discount-factor dict holding only the 1-year anchor
`P(1) = 1/(1 + 1%) = 100/101` (a 1% 1-year deposit). -/
def ddW1 : ℚ → Option ℚ :=
  fun t => if t = 1 then some (100 / 101) else none

/-- A single quoted 2-year swap at 1.2%. -/
def irsW1 : List (ℕ × ℚ) := [(2, 3 / 250)]

/-- The initial bootstrap state seeded with `P(1) = 100/101`. -/
def st0W1 : BState :=
  ⟨fup (fun _ => none) 1 (100 / 101), fup (fun _ => none) 1 (100 / 101)⟩

/-- The LSR curve state for `ddW1`/`irsW1` over horizon 2. -/
def stW1 : BState := loopB Method.LSR irsW1 st0W1 (List.range' 2 1)

/-- The CFR curve state for `ddW1`/`irsW1` over horizon 2. -/
def stW1C : BState := loopB Method.CFR irsW1 st0W1 (List.range' 2 1)

/-- A single quoted 2-year swap at 1%, used with horizon 4 so that
maturities 3 and 4 lie beyond the last quote. -/
def irsW8 : List (ℕ × ℚ) := [(2, 1 / 100)]

/-- The LSR curve state for `ddW1`/`irsW8` over horizon 4. -/
def stW8 : BState := loopB Method.LSR irsW8 st0W1 (List.range' 2 3)

/-- Swap quotes at 2Y (1.2%) and 4Y (≈5.751%), chosen so that the CFR
residual over the gap `[2, 4]` has its root exactly at `x = 0.9`. -/
def irs9 : List (ℕ × ℚ) := [(2, 3 / 250), (4, 10687 / 185829)]

/-- Deposit rows whose 1-year rate is 100%: `P(1) = 1/2`. -/
def cexDeposits : List (String × ℚ) := [("OND", 0), ("TND", 0), ("EUR1YD=", 100)]

/-- Swap rows quoting 0% at 2Y and 300% at 3Y (both non-negative). -/
def cexSwaps : List (String × ℚ) := [("EUR 2Y IRS", 0), ("EUR 3Y IRS", 300)]

/-- Bootstrap run on the non-negative quotes of
`cexDeposits`/`cexSwaps`. -/
def cexRun : Except BootError BState :=
  runBootstrap Method.LSR (process_deposits cexDeposits) (process_irs cexSwaps) 3

/-- Deposit rows whose 1-year rate is 0%: `P(1) = 1`. -/
def cex3Deposits : List (String × ℚ) := [("OND", 0), ("TND", 0), ("EUR1YD=", 0)]

/-- A single swap row quoting 200% at 2Y, which drives `P(2)` negative. -/
def cex3Swaps : List (String × ℚ) := [("EUR 2Y IRS", 200)]

/-- Bootstrap run for the negative-discount-factor scenario. -/
def cex3Run : Except BootError BState :=
  runBootstrap Method.LSR (process_deposits cex3Deposits) (process_irs cex3Swaps) 2

/-- Deposit rows including a 1-year quote at 5%. -/
def depRowsYes : List (String × ℚ) := [("OND", 0), ("TND", 0), ("EUR1YD=", 5)]

/-- Deposit rows with no 1-year quote at all. -/
def depRowsNo : List (String × ℚ) := [("OND", 0), ("TND", 0)]

/-- A stand-in for `math.log`. -/
def lgA : ℚ → ℚ := fun q => q

/-- A second stand-in for `math.log` agreeing with `lgA` on positive
arguments only. -/
def lgB : ℚ → ℚ := fun q => if 0 < q then q else 99

/-- A curve with a positive factor at 1 and a negative factor at 2. -/
def dfW6 : ℕ → Option ℚ :=
  fun n => if n = 1 then some (1 / 2) else if n = 2 then some (-(1 / 2)) else none

/-- A previous-factors dict holding only `P(1) = 1/2`. -/
def prevW2 : ℕ → Option ℚ := fun i => if i = 1 then some (1 / 2) else none

/-! ### Dict lemmas -/

theorem fup_self (f : ℕ → Option ℚ) (k : ℕ) (v : ℚ) : fup f k v k = some v := by
  simp [fup]

theorem fup_ne (f : ℕ → Option ℚ) {i k : ℕ} (v : ℚ) (h : i ≠ k) :
    fup f k v i = f i := by
  simp [fup, h]

theorem fup_isSome (f : ℕ → Option ℚ) (k : ℕ) (v : ℚ) {i : ℕ}
    (h : (f i).isSome) : ((fup f k v) i).isSome := by
  unfold fup
  by_cases hik : i = k <;> simp [hik, h]

/-- The annuity sum only looks at dict entries strictly below `T`. -/
theorem dictAnnuity_congr (alpha : ℚ) {f g : ℕ → Option ℚ} :
    ∀ T : ℕ, (∀ i < T, f i = g i) → dictAnnuity alpha f T = dictAnnuity alpha g T := by
  intro T
  induction T with
  | zero => intro _; rfl
  | succ n ih =>
    intro h
    unfold dictAnnuity
    rw [ih (fun i hi => h i (Nat.lt_succ_of_lt hi)), h n (Nat.lt_succ_self n)]

/-! ### List helper lemmas -/

theorem mem_insNat {y x : ℕ} : ∀ {l : List ℕ}, y ∈ insNat x l ↔ y = x ∨ y ∈ l := by
  intro l
  induction l with
  | nil => simp [insNat]
  | cons a rest ih =>
    unfold insNat
    by_cases h : x < a
    · simp [h, ih]
    · simp [h, ih]
      tauto

theorem mem_sortNat {y : ℕ} {l : List ℕ} : y ∈ sortNat l ↔ y ∈ l := by
  suffices H : ∀ (l acc : List ℕ),
      y ∈ l.foldl (fun acc x => insNat x acc) acc ↔ y ∈ acc ∨ y ∈ l by
    simpa [sortNat] using H l []
  intro l
  induction l with
  | nil => simp
  | cons a rest ih =>
    intro acc
    simp only [List.foldl_cons, ih, mem_insNat, List.mem_cons]
    tauto

theorem le_maxN {x : ℕ} : ∀ {l : List ℕ}, x ∈ l → x ≤ maxN l := by
  intro l
  induction l with
  | nil => simp
  | cons a rest ih =>
    intro hx
    rcases List.mem_cons.mp hx with h | h
    · simp [maxN, List.foldr, h, Nat.le_max_left]
    · exact le_trans (ih h) (by simp [maxN, List.foldr, Nat.le_max_right])

theorem maxN_mem : ∀ {l : List ℕ}, l ≠ [] → maxN l ∈ l := by
  intro l
  induction l with
  | nil => intro h; exact absurd rfl h
  | cons a rest ih =>
    intro _
    by_cases hr : rest = []
    · subst hr; simp [maxN]
    · have hmem := ih hr
      have hfold : maxN (a :: rest) = max a (maxN rest) := rfl
      rw [hfold]
      rcases le_total a (maxN rest) with h | h
      · rw [max_eq_right h]; exact List.mem_cons_of_mem _ hmem
      · rw [max_eq_left h]; exact List.mem_cons_self _ _

theorem maxN_lt {l : List ℕ} {T : ℕ} (hne : l ≠ []) (h : ∀ x ∈ l, x < T) :
    maxN l < T :=
  h _ (maxN_mem hne)

theorem minN_mem : ∀ {l : List ℕ}, l ≠ [] → minN l ∈ l := by
  intro l
  induction l with
  | nil => intro h; exact absurd rfl h
  | cons a rest ih =>
    intro _
    match rest, ih with
    | [], _ => simp [minN]
    | b :: rest', ih =>
      have hmem := ih (by simp)
      show min a (minN (b :: rest')) ∈ a :: b :: rest'
      rcases Nat.le_total a (minN (b :: rest')) with h | h
      · rw [Nat.min_eq_left h]; exact List.mem_cons_self _ _
      · rw [Nat.min_eq_right h]; exact List.mem_cons_of_mem _ hmem

theorem lookup_mem_keys {irs : List (ℕ × ℚ)} {T : ℕ} {S : ℚ}
    (h : alLookup irs T = some S) : T ∈ irsKeys irs := by
  induction irs with
  | nil => simp [alLookup] at h
  | cons p rest ih =>
    rw [alLookup] at h
    by_cases hk : T = p.1
    · simp [irsKeys, hk]
    · rw [if_neg hk] at h
      exact List.mem_cons_of_mem _ (ih h)

theorem lookup_eq_none_of_forall_lt {irs : List (ℕ × ℚ)} {T : ℕ}
    (h : ∀ k ∈ irsKeys irs, k < T) : alLookup irs T = none := by
  cases hl : alLookup irs T with
  | none => rfl
  | some S =>
    have := h T (lookup_mem_keys hl)
    omega

theorem mem_lowerCands {irs : List (ℕ × ℚ)} {T x : ℕ} :
    x ∈ lowerCands irs T ↔ x ∈ irsKeys irs ∧ x < T := by
  simp [lowerCands, List.mem_filter, mem_sortNat]

theorem mem_upperCands {irs : List (ℕ × ℚ)} {T x : ℕ} :
    x ∈ upperCands irs T ↔ x ∈ irsKeys irs ∧ T < x := by
  simp [upperCands, List.mem_filter, mem_sortNat]

/-! ### Step lemmas -/

theorem writeP_df_ne {st : BState} {T i : ℕ} (P : ℚ) (h : i ≠ T) :
    (writeP st T P).df i = st.df i :=
  fup_ne _ _ h

theorem writeP_ann_ne {st : BState} {T i : ℕ} (P : ℚ) (h : i ≠ T) :
    (writeP st T P).ann i = st.ann i :=
  fup_ne _ _ h

theorem cfrFill_preserve :
    ∀ (dfs : List ℚ) (Ts : ℕ) (st : BState) {i : ℕ}, i < Ts →
      (cfrFill Ts dfs st).df i = st.df i ∧ (cfrFill Ts dfs st).ann i = st.ann i := by
  intro dfs
  induction dfs with
  | nil => intro Ts st i _; exact ⟨rfl, rfl⟩
  | cons v rest ih =>
    intro Ts st i hi
    have hrec := ih (Ts + 1)
      ⟨fup st.df Ts v, fup st.ann Ts (annGet st.ann (Ts - 1) + v)⟩
      (Nat.lt_succ_of_lt hi)
    refine ⟨hrec.1.trans ?_, hrec.2.trans ?_⟩
    · exact fup_ne _ _ (by omega)
    · exact fup_ne _ _ (by omega)

theorem cfrFill_keepsSome :
    ∀ (dfs : List ℚ) (Ts : ℕ) (st : BState) {i : ℕ},
      (st.df i).isSome → ((cfrFill Ts dfs st).df i).isSome := by
  intro dfs
  induction dfs with
  | nil => intro Ts st i h; exact h
  | cons v rest ih =>
    intro Ts st i h
    exact ih (Ts + 1) _ (fup_isSome _ _ _ h)

theorem cfrFill_defines :
    ∀ (dfs : List ℚ) (Ts : ℕ) (st : BState) {k : ℕ}, Ts ≤ k →
      k < Ts + dfs.length → ((cfrFill Ts dfs st).df k).isSome := by
  intro dfs
  induction dfs with
  | nil => intro Ts st k h1 h2; simp at h2; omega
  | cons v rest ih =>
    intro Ts st k h1 h2
    by_cases hk : k = Ts
    · refine cfrFill_keepsSome rest (Ts + 1) _ ?_
      show ((fup st.df Ts v) k).isSome
      rw [hk, fup_self]
      rfl
    · exact ih (Ts + 1) _ (by omega) (by simp at h2 ⊢; omega)

theorem stepT_quoted {method : Method} {irs : List (ℕ × ℚ)} {st : BState}
    {T : ℕ} {S : ℚ} (hl : alLookup irs T = some S) :
    stepT method irs st T = writeP st T (bootstrap_discount_factor_IRS S T st.df 1) := by
  unfold stepT
  rw [hl]

theorem stepT_fallback {method : Method} {irs : List (ℕ × ℚ)} {st : BState}
    {T : ℕ} (hl : alLookup irs T = none)
    (hcond : ¬(lowerCands irs T ≠ [] ∧ upperCands irs T ≠ [])) :
    stepT method irs st T = writeP st T ((st.df (T - 1)).getD 0) := by
  unfold stepT
  rw [hl, if_neg hcond]

theorem stepT_lsr {method : Method} {irs : List (ℕ × ℚ)} {st : BState}
    {T : ℕ} (hl : alLookup irs T = none)
    (hcond : lowerCands irs T ≠ [] ∧ upperCands irs T ≠ [])
    (hm : method = Method.LSR ∨ st.df (maxN (lowerCands irs T)) = none) :
    stepT method irs st T =
      writeP st T (bootstrap_discount_factor_IRS
        (interpolate_LSR ((alLookup irs (maxN (lowerCands irs T))).getD 0)
          ((alLookup irs (minN (upperCands irs T))).getD 0)
          (maxN (lowerCands irs T) : ℚ) (minN (upperCands irs T) : ℚ) (T : ℚ))
        T st.df 1) := by
  unfold stepT
  rw [hl, if_pos hcond, if_pos hm]

theorem stepT_cfr {method : Method} {irs : List (ℕ × ℚ)} {st : BState}
    {T : ℕ} (hl : alLookup irs T = none)
    (hcond : lowerCands irs T ≠ [] ∧ upperCands irs T ≠ [])
    (hm : ¬(method = Method.LSR ∨ st.df (maxN (lowerCands irs T)) = none)) :
    stepT method irs st T =
      cfrFill (maxN (lowerCands irs T) + 1)
        (solve_cfr ((st.df (maxN (lowerCands irs T))).getD 0)
          (annGet st.ann (maxN (lowerCands irs T)))
          ((alLookup irs (minN (upperCands irs T))).getD 0)
          (minN (upperCands irs T) - maxN (lowerCands irs T))).2 st := by
  unfold stepT
  rw [hl, if_pos hcond, if_neg hm]

theorem stepT_beyond {method : Method} {irs : List (ℕ × ℚ)} {st : BState}
    {T : ℕ} (h : ∀ k ∈ irsKeys irs, k < T) :
    stepT method irs st T = writeP st T ((st.df (T - 1)).getD 0) := by
  have hl := lookup_eq_none_of_forall_lt h
  have hup : upperCands irs T = [] := by
    rw [List.eq_nil_iff_forall_not_mem]
    intro x hx
    rw [mem_upperCands] at hx
    have := h x hx.1
    omega
  refine stepT_fallback hl ?_
  rw [hup]
  simp

theorem writeP_df_self (st : BState) (T : ℕ) (P : ℚ) :
    (writeP st T P).df T = some P :=
  fup_self _ _ _

theorem writeP_ann_self (st : BState) (T : ℕ) (P : ℚ) :
    (writeP st T P).ann T = some (annGet st.ann (T - 1) + P) :=
  fup_self _ _ _

/-- A step at maturity `T` never touches entries at or below a quoted
maturity `T₀ < T`: the quoted, LSR and fallback branches write only at
`T`, and the CFR branch writes only above `T_prev ≥ T₀`. -/
theorem stepT_preserve_le_quoted {method : Method} {irs : List (ℕ × ℚ)}
    {st : BState} {T T₀ i : ℕ} (hT0 : T₀ ∈ irsKeys irs) (hTT : T₀ < T)
    (hi : i ≤ T₀) :
    (stepT method irs st T).df i = st.df i ∧
      (stepT method irs st T).ann i = st.ann i := by
  cases hl : alLookup irs T with
  | some S =>
    rw [stepT_quoted hl]
    exact ⟨writeP_df_ne _ (by omega), writeP_ann_ne _ (by omega)⟩
  | none =>
    by_cases hcond : lowerCands irs T ≠ [] ∧ upperCands irs T ≠ []
    · by_cases hm : method = Method.LSR ∨ st.df (maxN (lowerCands irs T)) = none
      · rw [stepT_lsr hl hcond hm]
        exact ⟨writeP_df_ne _ (by omega), writeP_ann_ne _ (by omega)⟩
      · rw [stepT_cfr hl hcond hm]
        have hTprev : T₀ ≤ maxN (lowerCands irs T) :=
          le_maxN (mem_lowerCands.mpr ⟨hT0, hTT⟩)
        exact cfrFill_preserve _ _ _ (by omega)
    · rw [stepT_fallback hl hcond]
      exact ⟨writeP_df_ne _ (by omega), writeP_ann_ne _ (by omega)⟩

/-- Every step defines the entry at its own maturity `T`. -/
theorem stepT_defines {method : Method} {irs : List (ℕ × ℚ)} {st : BState}
    {T : ℕ} : ((stepT method irs st T).df T).isSome := by
  cases hl : alLookup irs T with
  | some S => rw [stepT_quoted hl, writeP_df_self]; rfl
  | none =>
    by_cases hcond : lowerCands irs T ≠ [] ∧ upperCands irs T ≠ []
    · by_cases hm : method = Method.LSR ∨ st.df (maxN (lowerCands irs T)) = none
      · rw [stepT_lsr hl hcond hm, writeP_df_self]; rfl
      · rw [stepT_cfr hl hcond hm]
        have hTprev : maxN (lowerCands irs T) < T := by
          refine maxN_lt hcond.1 ?_
          intro x hx
          exact (mem_lowerCands.mp hx).2
        have hTnext : T < minN (upperCands irs T) :=
          (mem_upperCands.mp (minN_mem hcond.2)).2
        have hlen : (solve_cfr ((st.df (maxN (lowerCands irs T))).getD 0)
            (annGet st.ann (maxN (lowerCands irs T)))
            ((alLookup irs (minN (upperCands irs T))).getD 0)
            (minN (upperCands irs T) - maxN (lowerCands irs T))).2.length =
            minN (upperCands irs T) - maxN (lowerCands irs T) := by
          simp [solve_cfr]
        exact cfrFill_defines _ _ _ (by omega) (by rw [hlen]; omega)
    · rw [stepT_fallback hl hcond, writeP_df_self]; rfl

theorem stepT_keepsSome {method : Method} {irs : List (ℕ × ℚ)} {st : BState}
    {T i : ℕ} (h : (st.df i).isSome) :
    ((stepT method irs st T).df i).isSome := by
  cases hl : alLookup irs T with
  | some S => rw [stepT_quoted hl]; exact fup_isSome _ _ _ h
  | none =>
    by_cases hcond : lowerCands irs T ≠ [] ∧ upperCands irs T ≠ []
    · by_cases hm : method = Method.LSR ∨ st.df (maxN (lowerCands irs T)) = none
      · rw [stepT_lsr hl hcond hm]; exact fup_isSome _ _ _ h
      · rw [stepT_cfr hl hcond hm]; exact cfrFill_keepsSome _ _ _ h
    · rw [stepT_fallback hl hcond]; exact fup_isSome _ _ _ h

/-- A step at `T ≥ 2` never writes index `0`, and (as long as index `0`
was never written, which the bootstrap guarantees) never writes the anchor
index `1` either: the CFR branch requires its `T_prev` to be a present
key of the curve dict, hence `T_prev ≥ 1`, and writes from `T_prev + 1`
upward. -/
theorem stepT_keeps_anchor {method : Method} {irs : List (ℕ × ℚ)}
    {st : BState} {T : ℕ} (hT : 2 ≤ T) (h0 : st.df 0 = none) :
    (stepT method irs st T).df 0 = none ∧ (stepT method irs st T).df 1 = st.df 1 := by
  cases hl : alLookup irs T with
  | some S =>
    rw [stepT_quoted hl]
    exact ⟨(writeP_df_ne _ (by omega)).trans h0, writeP_df_ne _ (by omega)⟩
  | none =>
    by_cases hcond : lowerCands irs T ≠ [] ∧ upperCands irs T ≠ []
    · by_cases hm : method = Method.LSR ∨ st.df (maxN (lowerCands irs T)) = none
      · rw [stepT_lsr hl hcond hm]
        exact ⟨(writeP_df_ne _ (by omega)).trans h0, writeP_df_ne _ (by omega)⟩
      · rw [stepT_cfr hl hcond hm]
        have hne : st.df (maxN (lowerCands irs T)) ≠ none := by
          intro hc
          exact hm (Or.inr hc)
        have hTprev : 1 ≤ maxN (lowerCands irs T) := by
          rcases Nat.eq_zero_or_pos (maxN (lowerCands irs T)) with h | h
          · rw [h] at hne; exact absurd h0 hne
          · exact h
        exact ⟨(cfrFill_preserve _ _ _ (by omega)).1.trans h0,
          (cfrFill_preserve _ _ _ (by omega)).1⟩
    · rw [stepT_fallback hl hcond]
      exact ⟨(writeP_df_ne _ (by omega)).trans h0, writeP_df_ne _ (by omega)⟩

/-! ### Loop lemmas -/

theorem loopB_nil (method : Method) (irs : List (ℕ × ℚ)) (st : BState) :
    loopB method irs st [] = st := rfl

theorem loopB_cons (method : Method) (irs : List (ℕ × ℚ)) (st : BState)
    (T : ℕ) (L : List ℕ) :
    loopB method irs st (T :: L) = loopB method irs (stepT method irs st T) L := rfl

theorem loopB_append (method : Method) (irs : List (ℕ × ℚ)) (st : BState)
    (A B : List ℕ) :
    loopB method irs st (A ++ B) = loopB method irs (loopB method irs st A) B := by
  simp [loopB, List.foldl_append]

theorem loopB_preserve_le_quoted {method : Method} {irs : List (ℕ × ℚ)}
    {T₀ i : ℕ} (hT0 : T₀ ∈ irsKeys irs) (hi : i ≤ T₀) :
    ∀ (L : List ℕ) (st : BState), (∀ T' ∈ L, T₀ < T') →
      (loopB method irs st L).df i = st.df i ∧
        (loopB method irs st L).ann i = st.ann i := by
  intro L
  induction L with
  | nil => intro st _; exact ⟨rfl, rfl⟩
  | cons T' rest ih =>
    intro st hL
    rw [loopB_cons]
    have hstep := @stepT_preserve_le_quoted method irs st T' T₀ i
      hT0 (hL T' (List.mem_cons_self _ _)) hi
    have hrec := ih (stepT method irs st T')
      (fun x hx => hL x (List.mem_cons_of_mem _ hx))
    exact ⟨hrec.1.trans hstep.1, hrec.2.trans hstep.2⟩

theorem loopB_preserve_beyond {method : Method} {irs : List (ℕ × ℚ)} {i : ℕ} :
    ∀ (L : List ℕ) (st : BState),
      (∀ T' ∈ L, (∀ k ∈ irsKeys irs, k < T') ∧ i < T') →
      (loopB method irs st L).df i = st.df i ∧
        (loopB method irs st L).ann i = st.ann i := by
  intro L
  induction L with
  | nil => intro st _; exact ⟨rfl, rfl⟩
  | cons T' rest ih =>
    intro st hL
    rw [loopB_cons]
    obtain ⟨hbey, hiT⟩ := hL T' (List.mem_cons_self _ _)
    have hstep : (stepT method irs st T').df i = st.df i ∧
        (stepT method irs st T').ann i = st.ann i := by
      rw [stepT_beyond hbey]
      exact ⟨writeP_df_ne _ (by omega), writeP_ann_ne _ (by omega)⟩
    have hrec := ih (stepT method irs st T')
      (fun x hx => hL x (List.mem_cons_of_mem _ hx))
    exact ⟨hrec.1.trans hstep.1, hrec.2.trans hstep.2⟩

/-- Presence invariant: after processing maturities `a, a+1, …, a+n-1`,
every grid index in `[1, a+n)` carries a discount factor, provided every
index in `[1, a)` already did. -/
theorem loopB_presence {method : Method} {irs : List (ℕ × ℚ)} :
    ∀ (n a : ℕ) (st : BState),
      (∀ i, 1 ≤ i → i < a → (st.df i).isSome) →
      ∀ i, 1 ≤ i → i < a + n →
        ((loopB method irs st (List.range' a n)).df i).isSome := by
  intro n
  induction n with
  | zero => intro a st h i h1 h2; exact h i h1 (by omega)
  | succ m ih =>
    intro a st h i h1 h2
    rw [List.range'_succ, loopB_cons]
    refine ih (a + 1) (stepT method irs st a) ?_ i h1 (by omega)
    intro j hj1 hj2
    by_cases hja : j = a
    · subst hja; exact stepT_defines
    · exact stepT_keepsSome (h j hj1 (by omega))

theorem loopB_keeps_anchor {method : Method} {irs : List (ℕ × ℚ)} :
    ∀ (L : List ℕ) (st : BState), (∀ T ∈ L, 2 ≤ T) → st.df 0 = none →
      (loopB method irs st L).df 0 = none ∧
        (loopB method irs st L).df 1 = st.df 1 := by
  intro L
  induction L with
  | nil => intro st _ h0; exact ⟨h0, rfl⟩
  | cons T rest ih =>
    intro st hL h0
    rw [loopB_cons]
    have hstep := @stepT_keeps_anchor method irs st T
      (hL T (List.mem_cons_self _ _)) h0
    have hrec := ih (stepT method irs st T)
      (fun x hx => hL x (List.mem_cons_of_mem _ hx)) hstep.1
    exact ⟨hrec.1, hrec.2.trans hstep.2⟩

/-- Splitting the loop range `[2, …, H]` at a maturity `2 ≤ T ≤ H`. -/
theorem range_split {T H : ℕ} (h2 : 2 ≤ T) (hTH : T ≤ H) :
    List.range' 2 (H - 1) =
      List.range' 2 (T - 2) ++ T :: List.range' (T + 1) (H - T) := by
  have hsum : H - 1 = ((H - T) + 1) + (T - 2) := by omega
  have h2T : 2 + (T - 2) = T := by omega
  rw [hsum, ← List.range'_append_1 2 (T - 2) (H - T + 1), h2T, List.range'_succ]

/-- Central helper: at every quoted maturity `2 ≤ T ≤ H` the final curve
satisfies the par-swap recurrence with respect to its own (final) earlier
entries, and the annuity cache records `ann(T) = ann(T-1) + P(T)`.  This
holds because the iteration at `T` applies
`bootstrap_discount_factor_IRS` to the state at that moment, and no later
iteration ever rewrites an entry at or below a quoted maturity. -/
theorem quoted_final_recurrence {method : Method} {dd : ℚ → Option ℚ}
    {irs : List (ℕ × ℚ)} {H T : ℕ} {S : ℚ} {st : BState}
    (hl : alLookup irs T = some S) (h2 : 2 ≤ T) (hTH : T ≤ H)
    (hrun : runBootstrap method dd irs H = .ok st) :
    st.df T = some (bootstrap_discount_factor_IRS S T st.df 1) ∧
      st.ann T = some (annGet st.ann (T - 1) +
        bootstrap_discount_factor_IRS S T st.df 1) := by
  unfold runBootstrap at hrun
  cases hdd : dd 1 with
  | none => rw [hdd] at hrun; exact absurd hrun (by simp)
  | some P1 =>
    rw [hdd] at hrun
    have hst : st = loopB method irs
        ⟨fup (fun _ => none) 1 P1, fup (fun _ => none) 1 P1⟩
        (List.range' 2 (H - 1)) := by
      cases hrun
      rfl
    set st0 : BState := ⟨fup (fun _ => none) 1 P1, fup (fun _ => none) 1 P1⟩
      with hst0
    rw [range_split h2 hTH] at hst
    rw [loopB] at hst
    rw [List.foldl_append] at hst
    set st1 : BState := List.foldl (stepT method irs) st0 (List.range' 2 (T - 2))
      with hst1
    rw [List.foldl_cons] at hst
    have hkeys : T ∈ irsKeys irs := lookup_mem_keys hl
    set P := bootstrap_discount_factor_IRS S T st1.df 1 with hP
    have hstep : stepT method irs st1 T = writeP st1 T P := stepT_quoted hl
    rw [hstep] at hst
    have hsuf : ∀ T' ∈ List.range' (T + 1) (H - T), T < T' := by
      intro T' hT'
      have := List.mem_range'_1.mp hT'
      omega
    have hpres : ∀ i, i ≤ T →
        st.df i = (writeP st1 T P).df i ∧ st.ann i = (writeP st1 T P).ann i := by
      intro i hi
      rw [hst]
      exact loopB_preserve_le_quoted hkeys hi _ _ hsuf
    have hdfT : st.df T = some P := by
      rw [(hpres T le_rfl).1, writeP_df_self]
    have hdf_lt : ∀ i, i < T → st.df i = st1.df i := by
      intro i hi
      rw [(hpres i (by omega)).1]
      exact writeP_df_ne _ (by omega)
    have hPfinal : bootstrap_discount_factor_IRS S T st.df 1 = P := by
      rw [hP]
      unfold bootstrap_discount_factor_IRS
      rw [dictAnnuity_congr 1 T hdf_lt]
    have hannT : st.ann T = some (annGet st1.ann (T - 1) + P) := by
      rw [(hpres T le_rfl).2, writeP_ann_self]
    have hann_prev : st.ann (T - 1) = st1.ann (T - 1) := by
      rw [(hpres (T - 1) (by omega)).2]
      exact writeP_ann_ne _ (by omega)
    refine ⟨by rw [hPfinal, hdfT], ?_⟩
    rw [hPfinal, hannT, annGet, annGet, hann_prev]

theorem scfGo_zero (f : ℚ → ℚ) (tol : ℚ) (lo hi last : ℚ) :
    scfGo f tol 0 lo hi last = last := rfl

theorem scfGo_succ (f : ℚ → ℚ) (tol : ℚ) (n : ℕ) (lo hi last : ℚ) :
    scfGo f tol (n + 1) lo hi last =
      if |f ((lo + hi) / 2)| < tol then (lo + hi) / 2
      else if f lo * f ((lo + hi) / 2) < 0 then
        scfGo f tol n lo ((lo + hi) / 2) ((lo + hi) / 2)
      else scfGo f tol n ((lo + hi) / 2) hi ((lo + hi) / 2) := rfl

theorem scfSteps_succ (f : ℚ → ℚ) (tol : ℚ) (n : ℕ) (lo hi : ℚ) :
    scfSteps f tol (n + 1) lo hi =
      if |f ((lo + hi) / 2)| < tol then 1
      else if f lo * f ((lo + hi) / 2) < 0 then
        scfSteps f tol n lo ((lo + hi) / 2) + 1
      else scfSteps f tol n ((lo + hi) / 2) hi + 1 := rfl

/-- On the constant residual `f ≡ 1` (same sign at both bracket ends,
never within tolerance), the bisection loop marches the lower end towards
`hi = 1` and finally returns the midpoint `1 - (1 - lo)/2^n`. -/
theorem scfGo_const_one :
    ∀ (n : ℕ) (lo last : ℚ),
      scfGo (fun _ => 1) (1 / 100000000) (n + 1) lo 1 last =
        1 - (1 - lo) / 2 ^ (n + 1) := by
  intro n
  induction n with
  | zero =>
    intro lo last
    rw [scfGo_succ, if_neg (by norm_num), if_neg (by norm_num), scfGo_zero]
    ring
  | succ k ih =>
    intro lo last
    rw [scfGo_succ, if_neg (by norm_num), if_neg (by norm_num),
      ih ((lo + 1) / 2) ((lo + 1) / 2)]
    ring

/-! ### The claims -/

/-- C1: for every whole-year maturity `2 ≤ T ≤ horizon` with a swap quote
`S(T)`, the bootstrapped curve satisfies the par-swap recurrence
`P(T) = (1 - S(T) * Σ_{i<T} P(i)) / (1 + S(T) * 1)` over the previously
bootstrapped factors (annual accrual factor 1.0), and the annuity cache
records `ann(T) = ann(T-1) + P(T)`. -/
theorem C1_par_swap_recurrence (method : Method) (dd : ℚ → Option ℚ)
    (irs : List (ℕ × ℚ)) (H T : ℕ) (S : ℚ) (st : BState)
    (hl : alLookup irs T = some S) (h2 : 2 ≤ T) (hTH : T ≤ H)
    (hrun : runBootstrap method dd irs H = .ok st) :
    st.df T = some (bootstrap_discount_factor_IRS S T st.df 1) ∧
      st.ann T = some (annGet st.ann (T - 1) +
        bootstrap_discount_factor_IRS S T st.df 1) :=
  quoted_final_recurrence hl h2 hTH hrun

/-- Witness for C1 at the concrete input `ddW1`/`irsW1`, horizon 2,
quoted maturity `T = 2`. -/
theorem C1_par_swap_recurrence_witness :
    stW1.df 2 = some (bootstrap_discount_factor_IRS (3 / 250) 2 stW1.df 1) ∧
      stW1.ann 2 = some (annGet stW1.ann 1 +
        bootstrap_discount_factor_IRS (3 / 250) 2 stW1.df 1) :=
  C1_par_swap_recurrence Method.LSR ddW1 irsW1 2 2 (3 / 250) stW1
    rfl (by omega) (by omega) (by with_unfolding_all rfl)

/-- C9 (amended): under both gap-filling policies the curve satisfies the
direct par-swap recurrence at every directly quoted maturity (each with
respect to its own previously bootstrapped factors); the original claim's
further assertion — that the two policies can differ only at gap-filled
maturities — is false, because the gap-filled factors enter the annuity
of later quoted maturities (see the counterexample). -/
theorem C9_policies_recurrence_at_quoted (dd : ℚ → Option ℚ)
    (irs : List (ℕ × ℚ)) (H T : ℕ) (S : ℚ) (stL stC : BState)
    (hl : alLookup irs T = some S) (h2 : 2 ≤ T) (hTH : T ≤ H)
    (hrunL : runBootstrap Method.LSR dd irs H = .ok stL)
    (hrunC : runBootstrap Method.CFR dd irs H = .ok stC) :
    stL.df T = some (bootstrap_discount_factor_IRS S T stL.df 1) ∧
      stC.df T = some (bootstrap_discount_factor_IRS S T stC.df 1) :=
  ⟨(quoted_final_recurrence hl h2 hTH hrunL).1,
   (quoted_final_recurrence hl h2 hTH hrunC).1⟩

/-- Witness for the amended C9 at `ddW1`/`irsW1`, horizon 2, `T = 2`. -/
theorem C9_policies_recurrence_witness :
    stW1.df 2 = some (bootstrap_discount_factor_IRS (3 / 250) 2 stW1.df 1) ∧
      stW1C.df 2 = some (bootstrap_discount_factor_IRS (3 / 250) 2 stW1C.df 1) :=
  C9_policies_recurrence_at_quoted ddW1 irsW1 2 2 (3 / 250) stW1 stW1C
    rfl (by omega) (by omega) (by with_unfolding_all rfl) (by with_unfolding_all rfl)

set_option maxRecDepth 40000 in
/-- C9 counterexample: with a 1% 1-year deposit and swap quotes at 2Y and
4Y (`irs9`), maturity 4 is directly quoted, yet the LSR and CFR runs
produce different discount factors at `T = 4` — the policies do not
differ only at gap-filled maturities, because the annuity entering the
recurrence at `T = 4` contains the differing gap fill at 3. -/
theorem C9_policies_differ_at_quoted :
    (alLookup irs9 4).isSome = true ∧
      getCurve (runBootstrap Method.LSR ddW1 irs9 4) 4 ≠
        getCurve (runBootstrap Method.CFR ddW1 irs9 4) 4 := by
  with_unfolding_all decide

set_option maxRecDepth 40000 in
/-- C2 counterexample: all input rates are non-negative (a 100% 1-year
deposit, swap quotes of 0% at 2Y and 300% at 3Y), yet the bootstrapped
curve is neither non-increasing (`P(2) = 1 > 1/2 = P(1)`) nor contained
in `(0, 1]` (`P(3) = -7/8 ≤ 0`). -/
theorem C2_invariant_fails_for_nonneg_rates :
    getCurve cexRun 1 = some (1 / 2) ∧ getCurve cexRun 2 = some 1 ∧
      getCurve cexRun 3 = some (-(7 / 8)) ∧
      ((1 : ℚ) / 2 < 1) ∧ ((-(7 / 8) : ℚ) ≤ 0) := by
  with_unfolding_all decide

/-- C2 (amended): non-negative rates alone do not keep the bootstrapped
factors in `(0, 1]` or non-increasing.  What does hold for each par-swap
step with `S ≥ 0` and a non-negative running annuity `A`: the computed
factor is always `≤ 1`; it is positive exactly when `S * A < 1`; and it
does not exceed the previous factor exactly when
`1 - P(T-1) ≤ S * (A + P(T-1))`. -/
theorem C2_step_invariant (S Pprev : ℚ) (prev : ℕ → Option ℚ) (T : ℕ)
    (hS : 0 ≤ S) (hA : 0 ≤ dictAnnuity 1 prev T) :
    bootstrap_discount_factor_IRS S T prev 1 ≤ 1 ∧
      (0 < bootstrap_discount_factor_IRS S T prev 1 ↔
        S * dictAnnuity 1 prev T < 1) ∧
      (bootstrap_discount_factor_IRS S T prev 1 ≤ Pprev ↔
        1 - Pprev ≤ S * (dictAnnuity 1 prev T + Pprev)) := by
  have hden : (0 : ℚ) < 1 + S * 1 := by nlinarith
  unfold bootstrap_discount_factor_IRS
  refine ⟨?_, ?_, ?_⟩
  · rw [div_le_one hden]
    nlinarith [mul_nonneg hS hA]
  · rw [lt_div_iff₀ hden]
    constructor
    · intro h; nlinarith
    · intro h; nlinarith
  · rw [div_le_iff₀ hden]
    constructor
    · intro h; nlinarith
    · intro h; nlinarith

/-- Witness for the amended C2 at `S = 0`, `P(1) = 1/2`, `T = 2`. -/
theorem C2_step_invariant_witness :
    bootstrap_discount_factor_IRS 0 2 prevW2 1 ≤ 1 ∧
      (0 < bootstrap_discount_factor_IRS 0 2 prevW2 1 ↔
        0 * dictAnnuity 1 prevW2 2 < 1) ∧
      (bootstrap_discount_factor_IRS 0 2 prevW2 1 ≤ 3 / 4 ↔
        1 - 3 / 4 ≤ 0 * (dictAnnuity 1 prevW2 2 + 3 / 4)) :=
  C2_step_invariant 0 (3 / 4) prevW2 2 le_rfl (by with_unfolding_all decide)

set_option maxRecDepth 40000 in
/-- C3 counterexample: with anchor `P(1) = 1` (0% deposit) and a 200%
2-year swap the par-swap recurrence yields `P(2) = -1/3 ≤ 0`; the
bootstrap nevertheless succeeds and stores the non-positive value in the
curve — no `InvalidDiscountFactor` error exists in `q3.py`. -/
theorem C3_nonpositive_df_is_stored :
    bootOk cex3Run = true ∧ getCurve cex3Run 2 = some (-(1 / 3)) ∧
      ((-(1 / 3) : ℚ) ≤ 0) := by
  with_unfolding_all decide

/-- C3 (amended): the bootstrap performs no discount-factor validation:
whenever the 1-year anchor is present it returns `.ok` regardless of the
quotes, storing the par-swap result even when it is non-positive (see
the counterexample); only the reporting-time derivations guard against
`P ≤ 0`. -/
theorem C3_no_invalid_df_check (method : Method) (dd : ℚ → Option ℚ)
    (irs : List (ℕ × ℚ)) (H : ℕ) (v : ℚ) (h : dd 1 = some v) :
    ∃ st, runBootstrap method dd irs H = .ok st := by
  unfold runBootstrap
  rw [h]
  exact ⟨_, rfl⟩

/-- Witness for the amended C3. -/
theorem C3_no_invalid_df_check_witness :
    ∃ st, runBootstrap Method.LSR ddW1 irsW1 2 = .ok st :=
  C3_no_invalid_df_check Method.LSR ddW1 irsW1 2 (100 / 101)
    (by with_unfolding_all rfl)

/-- C4: bootstrapping fails with the `MissingAnchor` error (the
`ValueError` of `q3.py` line 154) precisely when no 1-year deposit
discount factor exists; when one exists the bootstrap succeeds and the
curve's anchor `P(1)` is exactly that deposit discount factor. -/
theorem C4_missing_anchor (method : Method) (dd : ℚ → Option ℚ)
    (irs : List (ℕ × ℚ)) (H : ℕ) (v : ℚ) :
    (dd 1 = none →
      runBootstrap method dd irs H = .error BootError.MissingAnchor) ∧
      (dd 1 = some v →
        ∃ st, runBootstrap method dd irs H = .ok st ∧ st.df 1 = some v) := by
  constructor
  · intro h
    unfold runBootstrap
    rw [h]
  · intro h
    unfold runBootstrap
    rw [h]
    refine ⟨_, rfl, ?_⟩
    have h0 : (⟨fup (fun _ => none) 1 v, fup (fun _ => none) 1 v⟩ : BState).df 0
        = none := by
      show fup (fun _ => none) 1 v 0 = none
      rw [fup_ne _ _ (by omega)]
    have ha := @loopB_keeps_anchor method irs
      (List.range' 2 (H - 1)) ⟨fup (fun _ => none) 1 v, fup (fun _ => none) 1 v⟩
      (fun T hT => by have := List.mem_range'_1.mp hT; omega) h0
    rw [ha.2]
    show fup (fun _ => none) 1 v 1 = some v
    exact fup_self _ _ _

/-- Witness for C4: the error branch on deposit rows lacking a 1-year
quote, and the success branch with a 5% 1-year deposit
(`P(1) = 1/(1+0.05) = 20/21`). -/
theorem C4_missing_anchor_witness :
    runBootstrap Method.LSR (process_deposits depRowsNo) [] 3 =
        .error BootError.MissingAnchor ∧
      ∃ st, runBootstrap Method.LSR (process_deposits depRowsYes) [] 3 =
          .ok st ∧ st.df 1 = some (20 / 21) :=
  ⟨(C4_missing_anchor Method.LSR (process_deposits depRowsNo) [] 3 0).1
      (by with_unfolding_all rfl),
   (C4_missing_anchor Method.LSR (process_deposits depRowsYes) [] 3 (20 / 21)).2
      (by with_unfolding_all decide)⟩

/-- C5 counterexample: a swap quote whose name contains no maturity
pattern is silently dropped by `q3.py`'s ingestion (the `dropna` on
line 69) — the result contains only the parseable quote and no error of
any kind is raised, contradicting the claimed `MalformedQuote` failure. -/
theorem C5_unparseable_quote_dropped :
    process_irs [("EURAB3E IRS", 5), ("EUR 2Y IRS", 3)] = [(2, 3 / 100)] ∧
      maturity_from_irs "EURAB3E IRS" = none := by
  with_unfolding_all decide

/-- C5 (amended): `q3.py` silently drops quotes whose maturity cannot be
parsed — an unparseable row contributes nothing to `irs_rates` and no
error is raised; only the deprecated `q3_old.py` raised a `ValueError`
(`MalformedQuote`) from its `extract_swap_maturity`. -/
theorem C5_silent_drop (name : String) (rate : ℚ) (rest : List (String × ℚ))
    (h : maturity_from_irs name = none) :
    process_irs ((name, rate) :: rest) = process_irs rest ∧
      ∃ e, extract_swap_maturity name = Except.error e := by
  constructor
  · simp [process_irs, h]
  · exact ⟨_, by unfold extract_swap_maturity; rw [h]⟩

/-- Witness for the amended C5. -/
theorem C5_silent_drop_witness :
    process_irs [("EURAB3E IRS", (5 : ℚ)), ("EUR 2Y IRS", 3)] =
        process_irs [("EUR 2Y IRS", 3)] ∧
      ∃ e, extract_swap_maturity "EURAB3E IRS" = Except.error e :=
  C5_silent_drop "EURAB3E IRS" 5 [("EUR 2Y IRS", 3)] (by decide)

/-- C6: the rate-derivation queries are pure functions of the curve that
return the `NaN` sentinel at non-positive discount factors rather than
raising, and their result never depends on the logarithm's values at
non-positive arguments — i.e. the logarithm of a non-positive number is
never evaluated (`lg` and `lg'` may differ arbitrarily there). -/
theorem C6_derivation_guards (lg lg' : ℚ → ℚ) (df : ℕ → Option ℚ)
    (T Tn : ℕ) (P Pn : ℚ) (hagree : ∀ q, 0 < q → lg q = lg' q) :
    spot_rate lg df T = spot_rate lg' df T ∧
      forward_rate lg df T Tn = forward_rate lg' df T Tn ∧
      (df T = some P → P ≤ 0 → spot_rate lg df T = some RVal.nan) ∧
      (df T = some P → df Tn = some Pn → P ≤ 0 ∨ Pn ≤ 0 →
        forward_rate lg df T Tn = some RVal.nan) := by
  refine ⟨?_, ?_, ?_, ?_⟩
  · cases hdf : df T with
    | none => simp [spot_rate, hdf]
    | some Q =>
      by_cases hq : 0 < Q
      · simp [spot_rate, hdf, hq, hagree Q hq]
      · simp [spot_rate, hdf, hq]
  · cases hdf : df T with
    | none => simp [forward_rate, hdf]
    | some Q =>
      cases hdfn : df Tn with
      | none => simp [forward_rate, hdf, hdfn]
      | some Qn =>
        by_cases hq : 0 < Q ∧ 0 < Qn
        · simp [forward_rate, hdf, hdfn, hq,
            hagree (Qn / Q) (div_pos hq.2 hq.1)]
        · simp [forward_rate, hdf, hdfn, hq]
  · intro hdf hP
    simp [spot_rate, hdf, not_lt.mpr hP]
  · intro hdf hdfn hor
    have hnot : ¬(0 < P ∧ 0 < Pn) := by
      rcases hor with h | h
      · exact fun hc => absurd hc.1 (not_lt.mpr h)
      · exact fun hc => absurd hc.2 (not_lt.mpr h)
    simp [forward_rate, hdf, hdfn, hnot]

/-- Witness for C6 on the concrete curve `dfW6` (`P(1) = 1/2`,
`P(2) = -1/2`): the spot query at 2 and the forward query over `[1, 2]`
return the sentinel, and the spot query at 1 is unchanged when the
logarithm is replaced at non-positive arguments. -/
theorem C6_derivation_guards_witness :
    spot_rate lgA dfW6 2 = some RVal.nan ∧
      forward_rate lgA dfW6 1 2 = some RVal.nan ∧
      spot_rate lgA dfW6 1 = spot_rate lgB dfW6 1 := by
  have hagree : ∀ q : ℚ, 0 < q → lgA q = lgB q := by
    intro q hq
    simp [lgA, lgB, if_pos hq]
  refine ⟨?_, ?_, ?_⟩
  · exact (C6_derivation_guards lgA lgB dfW6 2 2 (-(1 / 2)) 0 hagree).2.2.1
      rfl (by norm_num)
  · exact (C6_derivation_guards lgA lgB dfW6 1 2 (1 / 2) (-(1 / 2)) hagree).2.2.2
      rfl rfl (Or.inr (by norm_num))
  · exact (C6_derivation_guards lgA lgB dfW6 1 2 (1 / 2) (-(1 / 2)) hagree).1

/-- C7 counterexample: on the constant residual `f ≡ 1` the bracket ends
have the same sign (`f(0.8) * f(1.0) = 1 > 0`) and the tolerance is never
reached (the residual at the returned point is `1 ≥ 1e-8`), yet
`solve_constant_forward` raises neither `RootNotBracketed` nor
`RootFindingDidNotConverge`: it drops out of its loop after the 100
iterations and returns the final midpoint `1 - (1/5)/2^100`. -/
theorem C7_no_failure_signalling :
    (0 : ℚ) < (fun _ : ℚ => (1 : ℚ)) (8 / 10) * (fun _ : ℚ => (1 : ℚ)) 1 ∧
      (1 / 100000000 : ℚ) ≤
        |(fun _ : ℚ => (1 : ℚ))
          (solve_constant_forward (8 / 10) 1 (fun _ => 1) (1 / 100000000) 100)| ∧
      solve_constant_forward (8 / 10) 1 (fun _ => 1) (1 / 100000000) 100 =
        1 - (1 / 5) / 2 ^ 100 := by
  refine ⟨by norm_num, by norm_num, ?_⟩
  show scfGo (fun _ => 1) (1 / 100000000) 100 (8 / 10) 1 ((8 / 10 + 1) / 2) = _
  have h100 : (100 : ℕ) = 99 + 1 := rfl
  rw [h100, scfGo_const_one]
  norm_num

/-- C7 (amended): the bisection loop executes at most `max_iter`
iterations and always terminates with a value inside the initial bracket
(it never loops unboundedly); but contrary to the claim it signals
neither a same-sign bracket nor non-convergence — it silently returns
the last midpoint (see the counterexample). -/
theorem C7_bounded_iteration (f : ℚ → ℚ) (tol : ℚ) (n : ℕ) (lo hi last : ℚ)
    (h1 : lo ≤ hi) (h2 : lo ≤ last) (h3 : last ≤ hi) :
    (lo ≤ scfGo f tol n lo hi last ∧ scfGo f tol n lo hi last ≤ hi) ∧
      scfSteps f tol n lo hi ≤ n := by
  induction n generalizing lo hi last with
  | zero => exact ⟨⟨h2, h3⟩, Nat.le_refl 0⟩
  | succ k ih =>
    rw [scfGo_succ, scfSteps_succ]
    have hm1 : lo ≤ (lo + hi) / 2 := by linarith
    have hm2 : (lo + hi) / 2 ≤ hi := by linarith
    by_cases htol : |f ((lo + hi) / 2)| < tol
    · rw [if_pos htol, if_pos htol]
      exact ⟨⟨hm1, hm2⟩, Nat.succ_le_succ (Nat.zero_le k)⟩
    · rw [if_neg htol, if_neg htol]
      by_cases hsign : f lo * f ((lo + hi) / 2) < 0
      · rw [if_pos hsign, if_pos hsign]
        have hrec := ih lo ((lo + hi) / 2) ((lo + hi) / 2) hm1 hm1 le_rfl
        exact ⟨⟨hrec.1.1, le_trans hrec.1.2 hm2⟩, Nat.succ_le_succ hrec.2⟩
      · rw [if_neg hsign, if_neg hsign]
        have hrec := ih ((lo + hi) / 2) hi ((lo + hi) / 2) hm2 le_rfl hm2
        exact ⟨⟨le_trans hm1 hrec.1.1, hrec.1.2⟩, Nat.succ_le_succ hrec.2⟩

/-- Witness for the amended C7 on the source's bracket `[0.8, 1.0]`,
tolerance `1e-8` and iteration budget 100. -/
theorem C7_bounded_iteration_witness :
    ((4 / 5 : ℚ) ≤ scfGo (fun _ => 1) (1 / 100000000) 100 (4 / 5) 1 (9 / 10) ∧
        scfGo (fun _ => 1) (1 / 100000000) 100 (4 / 5) 1 (9 / 10) ≤ 1) ∧
      scfSteps (fun _ => 1) (1 / 100000000) 100 (4 / 5) 1 ≤ 100 :=
  C7_bounded_iteration (fun _ => 1) (1 / 100000000) 100 (4 / 5) 1 (9 / 10)
    (by norm_num) (by norm_num) (by norm_num)

/-- C8: for every grid maturity `2 ≤ T ≤ horizon` lying beyond every
quoted swap maturity, the bootstrapper carries the previous discount
factor forward unchanged: the final curve satisfies
`P(T) = P(T-1)` (flat extrapolation, `q3.py` lines 172-176). -/
theorem C8_flat_extrapolation (method : Method) (dd : ℚ → Option ℚ)
    (irs : List (ℕ × ℚ)) (H T : ℕ) (st : BState)
    (h2 : 2 ≤ T) (hTH : T ≤ H) (hbey : ∀ k ∈ irsKeys irs, k < T)
    (hrun : runBootstrap method dd irs H = .ok st) :
    st.df T = st.df (T - 1) := by
  unfold runBootstrap at hrun
  cases hdd : dd 1 with
  | none => rw [hdd] at hrun; exact absurd hrun (by simp)
  | some P1 =>
    rw [hdd] at hrun
    have hst : st = loopB method irs
        ⟨fup (fun _ => none) 1 P1, fup (fun _ => none) 1 P1⟩
        (List.range' 2 (H - 1)) := by
      cases hrun
      rfl
    set st0 : BState := ⟨fup (fun _ => none) 1 P1, fup (fun _ => none) 1 P1⟩
      with hst0
    rw [range_split h2 hTH, loopB_append, loopB_cons] at hst
    set st1 : BState := loopB method irs st0 (List.range' 2 (T - 2)) with hst1
    rw [stepT_beyond hbey] at hst
    have hpres : (st1.df (T - 1)).isSome := by
      rw [hst1]
      refine loopB_presence (T - 2) 2 st0 ?_ (T - 1) (by omega) (by omega)
      intro i hi1 hi2
      have hieq : i = 1 := by omega
      subst hieq
      show ((fup (fun _ => none) 1 P1) 1).isSome
      rw [fup_self]
      rfl
    obtain ⟨v, hv⟩ := Option.isSome_iff_exists.mp hpres
    have hsufT : ∀ T' ∈ List.range' (T + 1) (H - T),
        (∀ k ∈ irsKeys irs, k < T') ∧ T < T' := by
      intro T' hT'
      have hm := List.mem_range'_1.mp hT'
      exact ⟨fun k hk => by have := hbey k hk; omega, by omega⟩
    have hdfT : st.df T = some v := by
      rw [hst]
      have hp := @loopB_preserve_beyond method irs T
        (List.range' (T + 1) (H - T))
        (writeP st1 T ((st1.df (T - 1)).getD 0)) (fun T' h => hsufT T' h)
      rw [hp.1, writeP_df_self, hv]
      rfl
    have hdfT1 : st.df (T - 1) = some v := by
      rw [hst]
      have hp := @loopB_preserve_beyond method irs (T - 1)
        (List.range' (T + 1) (H - T))
        (writeP st1 T ((st1.df (T - 1)).getD 0))
        (fun T' h => ⟨(hsufT T' h).1, by have := (hsufT T' h).2; omega⟩)
      rw [hp.1, writeP_df_ne _ (by omega), hv]
    rw [hdfT, hdfT1]

/-- Witness for C8: a single 2Y quote, horizon 4 — the curve is flat from
maturity 3 onwards, in particular `P(4) = P(3)`. -/
theorem C8_flat_extrapolation_witness : stW8.df 4 = stW8.df 3 :=
  C8_flat_extrapolation Method.LSR ddW1 irsW8 4 4 stW8 (by omega) (by omega)
    (by decide) (by with_unfolding_all rfl)

/-- C10: the CFR residual is total on the whole rational line, in
particular on the bracket `[0.8, 1.0]` including `x = 1`: the explicit
zero-denominator check `solve_cfr_f_chk` always succeeds and agrees with
`solve_cfr_f`, because whenever `|1 - x| < 1e-8` fails the denominator
`1 - x` is non-zero; and within `1e-8` of `x = 1` the geometric-series
term is replaced by its limit form `delta * x`. -/
theorem C10_residual_total (S P a : ℚ) (delta : ℕ) (x : ℚ) :
    solve_cfr_f_chk S P a delta x = some (solve_cfr_f S P a delta x) ∧
      (|1 - x| < 1 / 100000000 →
        solve_cfr_f S P a delta x =
          S * (a + P * ((delta : ℚ) * x)) - (1 - P * x ^ delta)) := by
  constructor
  · by_cases h : |1 - x| < 1 / 100000000
    · unfold solve_cfr_f_chk solve_cfr_f
      rw [if_pos h, if_pos h]
      rfl
    · have hne : 1 - x ≠ 0 := by
        intro hc
        apply h
        rw [hc]
        norm_num
      unfold solve_cfr_f_chk solve_cfr_f safeDiv
      rw [if_neg h, if_neg h, if_neg hne]
      rfl
  · intro h
    unfold solve_cfr_f
    rw [if_pos h]

/-- Witness for C10 at the bracket endpoint `x = 1` (the point bisection
evaluates first on `[0.8, 1.0]`'s upper end), where the guard takes the
limit form. -/
theorem C10_residual_total_witness :
    solve_cfr_f_chk 1 1 1 3 1 = some (solve_cfr_f 1 1 1 3 1) ∧
      solve_cfr_f 1 1 1 3 1 =
        1 * (1 + 1 * (((3 : ℕ) : ℚ) * 1)) - (1 - 1 * 1 ^ 3) :=
  ⟨(C10_residual_total 1 1 1 3 1).1,
   (C10_residual_total 1 1 1 3 1).2 (by norm_num)⟩

end Q3
